import Mathlib

/-!
Verification of the planning-system state reconciler and quality-gate
pipeline (`reconcile-state.ts`, `verify-stop.ts`, `sync-devops.ts`).

The TypeScript sources are shallowly embedded as pure Lean functions:

* the Beads tracker is a state `TrackerState := String -> Option TStatus`
  (the `bd show` query result: `none` models an absent or unreachable item,
  exactly the `null` returned by `getBeadsStatus`);
* `bd update` / `bd close` mutations are applied through `setTrk`, guarded by
  a success oracle `ok : String -> Bool` (the boolean the CLI wrappers return;
  `reconcile` ignores those booleans, so a failed call only means the tracker
  state does not change);
* external command execution (`checkVerificationPasses`) is a parameter
  `verifOk : String -> Bool`, and the git working-tree check (`checkGitState`)
  is a parameter `gitClean : Bool`, computed once per pass as in the source;
* manifest reading is modelled on the JSON.parse result of each line
  (`RawLine`), and the file system write trace is made explicit.
-/

namespace PlanningSystem

/-- Manifest feature status, from the `ManifestEntry.status` union type. -/
inductive MStatus
  | pending
  | in_progress
  | completed
  | failed
deriving DecidableEq, Repr

/-- Beads tracker item status (`open`, `in_progress`, `closed`). -/
inductive TStatus
  | open_
  | in_progress
  | closed
deriving DecidableEq, Repr

/-- The `ManifestEntry` interface of `reconcile-state.ts`. -/
structure ManifestEntry where
  id : String
  file : String
  title : String
  description : String
  depends_on : List String
  status : MStatus
  verification : String
  beads_id : String
  devops_id : Option String
deriving DecidableEq, Repr

/-- The Beads tracker state: what `bd show` would report per task id. -/
abbrev TrackerState := String → Option TStatus

/-- One call made to the Beads CLI during reconciliation. -/
inductive TrackerCall
  | sync
  | getStatus (taskId : String)
  | setStatus (taskId : String) (status : TStatus)
  | close (taskId : String) (reason : String)
deriving DecidableEq, Repr

/-- Whether a tracker call mutates tracker state (`bd update` or `bd close`). -/
def TrackerCall.isMutation : TrackerCall → Bool
  | TrackerCall.setStatus _ _ => true
  | TrackerCall.close _ _ => true
  | _ => false

/-- Effect of `bd update --status` / `bd close` on the tracker state: when the
call succeeds (`ok taskId`) the item's status becomes `s`, otherwise nothing
changes.  The source ignores the returned boolean. -/
def setTrk (trk : TrackerState) (ok : String → Bool) (taskId : String)
    (s : TStatus) : TrackerState :=
  if ok taskId then fun x => if x = taskId then some s else trk x else trk

/-- Result of processing one manifest entry in the `reconcile` loop. -/
structure EntryResult where
  entry : ManifestEntry
  trk : TrackerState
  calls : List TrackerCall
  modified : Bool

/-- The body of the per-feature loop of `reconcile` (Step 5 of
`reconcile-state.ts`), translated branch by branch in source order:
the absent-status skip, then Cases 1-7 of the if/else chain. -/
def reconcileEntry (gitClean : Bool) (verifOk : String → Bool)
    (ok : String → Bool) (trk : TrackerState) (e : ManifestEntry) :
    EntryResult :=
  match trk e.beads_id with
  | none => ⟨e, trk, [TrackerCall.getStatus e.beads_id], false⟩
  | some b =>
    -- Case 1: Beads closed, manifest not completed
    if b = TStatus.closed ∧ e.status ≠ MStatus.completed then
      ⟨{e with status := MStatus.completed}, trk,
        [TrackerCall.getStatus e.beads_id], true⟩
    -- Case 2: Manifest completed, beads not closed
    else if e.status = MStatus.completed ∧ b ≠ TStatus.closed then
      ⟨e, setTrk trk ok e.beads_id TStatus.closed,
        [TrackerCall.getStatus e.beads_id,
         TrackerCall.close e.beads_id "Reconciliation: manifest shows completed"],
        false⟩
    -- Case 3: Beads in_progress, manifest pending (crash during work)
    else if b = TStatus.in_progress ∧ e.status = MStatus.pending then
      ⟨e, setTrk trk ok e.beads_id TStatus.open_,
        [TrackerCall.getStatus e.beads_id,
         TrackerCall.setStatus e.beads_id TStatus.open_],
        false⟩
    -- Case 4: Manifest in_progress, beads open (crash during work)
    else if e.status = MStatus.in_progress ∧ b = TStatus.open_ then
      ⟨{e with status := MStatus.pending}, trk,
        [TrackerCall.getStatus e.beads_id], true⟩
    -- Case 5: Both in_progress (crash mid-feature)
    else if e.status = MStatus.in_progress ∧ b = TStatus.in_progress then
      if verifOk e.verification && gitClean then
        ⟨{e with status := MStatus.completed},
          setTrk trk ok e.beads_id TStatus.closed,
          [TrackerCall.getStatus e.beads_id,
           TrackerCall.close e.beads_id
             "Reconciliation: verification passed after crash"],
          true⟩
      else
        ⟨{e with status := MStatus.pending},
          setTrk trk ok e.beads_id TStatus.open_,
          [TrackerCall.getStatus e.beads_id,
           TrackerCall.setStatus e.beads_id TStatus.open_],
          true⟩
    -- Case 6: Manifest failed (previous attempt failed)
    else if e.status = MStatus.failed then
      ⟨{e with status := MStatus.pending},
        setTrk trk ok e.beads_id TStatus.open_,
        [TrackerCall.getStatus e.beads_id,
         TrackerCall.setStatus e.beads_id TStatus.open_],
        true⟩
    -- Case 7: States match
    else ⟨e, trk, [TrackerCall.getStatus e.beads_id], false⟩

/-- Result of the whole per-feature loop. -/
structure LoopResult where
  entries : List ManifestEntry
  trk : TrackerState
  calls : List TrackerCall
  modified : Bool

/-- The `for (const entry of entries)` loop of `reconcile`, threading the
tracker state and accumulating the call trace and the `modified` flag. -/
def reconcileLoop (gitClean : Bool) (verifOk : String → Bool)
    (ok : String → Bool) : List ManifestEntry → TrackerState → LoopResult
  | [], trk => ⟨[], trk, [], false⟩
  | e :: rest, trk =>
    let r := reconcileEntry gitClean verifOk ok trk e
    let l := reconcileLoop gitClean verifOk ok rest r.trk
    ⟨r.entry :: l.entries, l.trk, r.calls ++ l.calls, r.modified || l.modified⟩

/-- JSON string quoting used by the serialization model. -/
def jstr (s : String) : String := "\"" ++ s ++ "\""

/-- The on-disk spelling of a manifest status. -/
def statusString : MStatus → String
  | MStatus.pending => "pending"
  | MStatus.in_progress => "in_progress"
  | MStatus.completed => "completed"
  | MStatus.failed => "failed"

/-- One `key:value` JSON member. -/
def jsonField (k v : String) : String := jstr k ++ ":" ++ v

/-- `JSON.stringify(entry)` with the interface's field insertion order;
`devops_id` is omitted when undefined, as JSON.stringify does. -/
def jsonOfEntry (e : ManifestEntry) : String :=
  "\x7b" ++
  String.intercalate ","
    ([jsonField "id" (jstr e.id),
      jsonField "file" (jstr e.file),
      jsonField "title" (jstr e.title),
      jsonField "description" (jstr e.description),
      jsonField "depends_on"
        ("[" ++ String.intercalate "," (e.depends_on.map jstr) ++ "]"),
      jsonField "status" (jstr (statusString e.status)),
      jsonField "verification" (jstr e.verification),
      jsonField "beads_id" (jstr e.beads_id)] ++
     (match e.devops_id with
      | some d => [jsonField "devops_id" (jstr d)]
      | none => []))
  ++ "\x7d"

/-- The file content produced by `writeManifest`:
`entries.map(e => JSON.stringify(e)).join("\n") + "\n"`. -/
def manifestContent (entries : List ManifestEntry) : String :=
  String.intercalate "\n" (entries.map jsonOfEntry) ++ "\n"

/-- `validateManifestEntry`: required fields (`id`, `file`, `title`, `status`,
`verification`, `beads_id`) must be present and truthy.  In this typed model
`status` is always a member of the enum, so its two checks never fire;
the five string fields are falsy exactly when empty. -/
def validateManifestEntry (entry : ManifestEntry) (index : Nat) : List String :=
  (if entry.id = "" then
    ["Entry " ++ toString index ++ ": missing required field id"] else []) ++
  (if entry.file = "" then
    ["Entry " ++ toString index ++ ": missing required field file"] else []) ++
  (if entry.title = "" then
    ["Entry " ++ toString index ++ ": missing required field title"] else []) ++
  (if entry.verification = "" then
    ["Entry " ++ toString index ++ ": missing required field verification"] else []) ++
  (if entry.beads_id = "" then
    ["Entry " ++ toString index ++ ": missing required field beads_id"] else [])

/-- Step 3 of `reconcile`: validation errors collected over all entries,
with their running index. -/
def manifestErrorsFrom : Nat → List ManifestEntry → List String
  | _, [] => []
  | i, e :: rest => validateManifestEntry e i ++ manifestErrorsFrom (i + 1) rest

/-- All validation errors of a manifest. -/
def manifestErrors (entries : List ManifestEntry) : List String :=
  manifestErrorsFrom 0 entries

/-- The JSON.parse outcome of one manifest line: a structured record or a
parse failure. -/
inductive RawLine
  | good (e : ManifestEntry)
  | bad
deriving DecidableEq, Repr

/-- `readManifest`: parse every line; the first malformed line makes the whole
read fail (the source logs the line number and returns `null`). -/
def parseLines : List RawLine → Option (List ManifestEntry)
  | [] => some []
  | RawLine.bad :: _ => none
  | RawLine.good e :: rest =>
    match parseLines rest with
    | none => none
    | some es => some (e :: es)

/-- Observable outcome of one `reconcile` pass: process exit code, final
in-memory entries, final tracker state, Beads CLI call trace, and the list of
manifest file writes (each write carries the full content written). -/
structure Outcome where
  exitCode : Nat
  entries : List ManifestEntry
  trk : TrackerState
  calls : List TrackerCall
  writes : List String

/-- The `reconcile` entry point of `reconcile-state.ts`:
Step 1 `bd sync` (fatal on failure), Step 2 read/parse (fatal on corruption),
Step 3 validation (fatal on errors), Step 4 git state (a pass-level
parameter here), Step 5 the per-feature loop, Step 6 a single manifest write
if anything changed, Step 7 exit 2 when features remain `in_progress`,
else exit 0. -/
def reconcile (lines : List RawLine) (syncOk : Bool) (trk0 : TrackerState)
    (ok : String → Bool) (gitClean : Bool) (verifOk : String → Bool) :
    Outcome :=
  if syncOk then
    match parseLines lines with
    | none => ⟨1, [], trk0, [TrackerCall.sync], []⟩
    | some entries =>
      if (manifestErrors entries).length > 0 then
        ⟨1, [], trk0, [TrackerCall.sync], []⟩
      else
        let l := reconcileLoop gitClean verifOk ok entries trk0
        ⟨if (l.entries.filter
              (fun e => decide (e.status = MStatus.in_progress))).length > 0
          then 2 else 0,
         l.entries, l.trk, TrackerCall.sync :: l.calls,
         if l.modified then [manifestContent l.entries] else []⟩
  else ⟨1, [], trk0, [TrackerCall.sync], []⟩

/-- Replaying a list of full-file writes over a starting content:
each write replaces the file, so the last write (or the original content,
if none) is what remains on disk. -/
def applyWrites (content : String) (writes : List String) : String :=
  writes.foldl (fun _ w => w) content

/-- The two (manifest status, tracker status) pairs the spec allows to persist
after a completed reconciliation pass. -/
def stablePair (e : ManifestEntry) (os : Option TStatus) : Prop :=
  (e.status = MStatus.pending ∧ os = some TStatus.open_) ∨
  (e.status = MStatus.completed ∧ os = some TStatus.closed)

/-- A per-feature state the reconciler leaves untouched: either the tracker
item is absent (the feature is skipped) or the pair is consistent. -/
def stableOrAbsent (e : ManifestEntry) (os : Option TStatus) : Prop :=
  os = none ∨ stablePair e os

lemma setTrk_ne (trk : TrackerState) (ok : String → Bool) (taskId : String)
    (s : TStatus) (x : String) (hx : x ≠ taskId) :
    setTrk trk ok taskId s x = trk x := by
  by_cases h : ok taskId <;> simp [setTrk, h, hx]

lemma setTrk_self (trk : TrackerState) (ok : String → Bool) (taskId : String)
    (s : TStatus) (h : ok taskId = true) :
    setTrk trk ok taskId s taskId = some s := by
  simp [setTrk, h]

/-- Processing an entry can only change its `status` field. -/
lemma reconcileEntry_shape (g : Bool) (v ok : String → Bool)
    (trk : TrackerState) (e : ManifestEntry) :
    ∃ s, (reconcileEntry g v ok trk e).entry = {e with status := s} := by
  cases hb : trk e.beads_id with
  | none => exact ⟨e.status, by simp [reconcileEntry, hb]⟩
  | some b =>
    simp only [reconcileEntry, hb]
    split_ifs <;>
      first
        | exact ⟨MStatus.completed, rfl⟩
        | exact ⟨MStatus.pending, rfl⟩
        | exact ⟨e.status, rfl⟩

lemma reconcileEntry_beads_id (g : Bool) (v ok : String → Bool)
    (trk : TrackerState) (e : ManifestEntry) :
    (reconcileEntry g v ok trk e).entry.beads_id = e.beads_id := by
  obtain ⟨s, hs⟩ := reconcileEntry_shape g v ok trk e
  rw [hs]

/-- Processing an entry never touches tracker items other than its own. -/
lemma reconcileEntry_frame (g : Bool) (v ok : String → Bool)
    (trk : TrackerState) (e : ManifestEntry) (x : String)
    (hx : x ≠ e.beads_id) :
    (reconcileEntry g v ok trk e).trk x = trk x := by
  cases hb : trk e.beads_id with
  | none => simp [reconcileEntry, hb]
  | some b =>
    simp only [reconcileEntry, hb]
    split_ifs <;>
      first
        | rfl
        | exact setTrk_ne trk ok e.beads_id _ x hx

/-- An absent tracker item makes the loop skip the feature entirely. -/
lemma reconcileEntry_skip (g : Bool) (v ok : String → Bool)
    (trk : TrackerState) (e : ManifestEntry) (hb : trk e.beads_id = none) :
    reconcileEntry g v ok trk e =
      ⟨e, trk, [TrackerCall.getStatus e.beads_id], false⟩ := by
  simp [reconcileEntry, hb]

/-- On an already-consistent (or absent) pair the loop body is a no-op:
only the status query happens, nothing is modified. -/
lemma reconcileEntry_noop (g : Bool) (v ok : String → Bool)
    (trk : TrackerState) (e : ManifestEntry)
    (h : stableOrAbsent e (trk e.beads_id)) :
    reconcileEntry g v ok trk e =
      ⟨e, trk, [TrackerCall.getStatus e.beads_id], false⟩ := by
  rcases h with h | ⟨h1, h2⟩ | ⟨h1, h2⟩
  · exact reconcileEntry_skip g v ok trk e h
  · simp [reconcileEntry, h1, h2]
  · simp [reconcileEntry, h1, h2]

/-- When the tracker item is present and the mutation succeeds, one loop
iteration leaves the feature in one of the two consistent pairs. -/
lemma reconcileEntry_stable (g : Bool) (v ok : String → Bool)
    (trk : TrackerState) (e : ManifestEntry) (b : TStatus)
    (hok : ok e.beads_id = true) (hb : trk e.beads_id = some b) :
    stablePair (reconcileEntry g v ok trk e).entry
      ((reconcileEntry g v ok trk e).trk e.beads_id) := by
  cases hs : e.status <;> cases b <;>
    first
      | (simp [reconcileEntry, hb, hs, stablePair, setTrk, hok]; done)
      | (cases hvg : (v e.verification && g) <;>
          simp [reconcileEntry, hb, hs, stablePair, setTrk, hok, hvg])

lemma reconcileEntry_stableOrAbsent (g : Bool) (v ok : String → Bool)
    (trk : TrackerState) (e : ManifestEntry) (hok : ok e.beads_id = true) :
    stableOrAbsent (reconcileEntry g v ok trk e).entry
      ((reconcileEntry g v ok trk e).trk e.beads_id) := by
  cases hb : trk e.beads_id with
  | none =>
    rw [reconcileEntry_skip g v ok trk e hb]
    exact Or.inl hb
  | some b => exact Or.inr (reconcileEntry_stable g v ok trk e b hok hb)

/-- The `modified` flag is only set on an actual status change. -/
lemma reconcileEntry_modified_status (g : Bool) (v ok : String → Bool)
    (trk : TrackerState) (e : ManifestEntry)
    (h : (reconcileEntry g v ok trk e).modified = true) :
    (reconcileEntry g v ok trk e).entry.status ≠ e.status := by
  cases hb : trk e.beads_id with
  | none => simp [reconcileEntry, hb] at h
  | some b =>
    cases hs : e.status <;> cases b <;>
      first
        | (simp [reconcileEntry, hb, hs] at h; done)
        | (simp [reconcileEntry, hb, hs]; done)
        | (cases hvg : (v e.verification && g) <;>
            simp [reconcileEntry, hb, hs, hvg])

lemma reconcileEntry_modified_ne (g : Bool) (v ok : String → Bool)
    (trk : TrackerState) (e : ManifestEntry)
    (h : (reconcileEntry g v ok trk e).modified = true) :
    (reconcileEntry g v ok trk e).entry ≠ e :=
  fun heq =>
    reconcileEntry_modified_status g v ok trk e h
      (congrArg ManifestEntry.status heq)

/-- The loop never touches tracker items not bound to one of its entries. -/
lemma reconcileLoop_frame (g : Bool) (v ok : String → Bool) :
    ∀ (entries : List ManifestEntry) (trk : TrackerState) (x : String),
      x ∉ entries.map (fun e => e.beads_id) →
      (reconcileLoop g v ok entries trk).trk x = trk x := by
  intro entries
  induction entries with
  | nil => intro trk x _; rfl
  | cons e rest ih =>
    intro trk x hx
    simp only [List.map_cons, List.mem_cons, not_or] at hx
    simp only [reconcileLoop]
    rw [ih _ x hx.2, reconcileEntry_frame g v ok trk e x hx.1]

/-- The loop only rewrites `status` fields, keeping length, order and every
other field. -/
lemma reconcileLoop_shape (g : Bool) (v ok : String → Bool) :
    ∀ (entries : List ManifestEntry) (trk : TrackerState),
      List.Forall₂ (fun e e' => ∃ s, e' = {e with status := s}) entries
        (reconcileLoop g v ok entries trk).entries := by
  intro entries
  induction entries with
  | nil => intro trk; simp [reconcileLoop]
  | cons e rest ih =>
    intro trk
    simp only [reconcileLoop]
    exact List.Forall₂.cons (reconcileEntry_shape g v ok trk e) (ih _)

lemma forall2_shape_beads :
    ∀ {es es' : List ManifestEntry},
      List.Forall₂ (fun e e' => ∃ s, e' = {e with status := s}) es es' →
      es'.map (fun e => e.beads_id) = es.map (fun e => e.beads_id) := by
  intro es es' h
  induction h with
  | nil => rfl
  | cons h1 _ ih => obtain ⟨s, hs⟩ := h1; simp [hs, ih]

lemma manifestErrorsFrom_shape :
    ∀ {es es' : List ManifestEntry},
      List.Forall₂ (fun e e' => ∃ s, e' = {e with status := s}) es es' →
      ∀ i, manifestErrorsFrom i es' = manifestErrorsFrom i es := by
  intro es es' h
  induction h with
  | nil => intro i; rfl
  | cons h1 _ ih =>
    intro i
    obtain ⟨s, hs⟩ := h1
    subst hs
    simp [manifestErrorsFrom, ih, validateManifestEntry]

/-- After a loop pass in which every tracker mutation succeeds, every feature
is left in a consistent pair or untouched because its tracker item is absent
(`beads_id`s assumed pairwise distinct, the spec's one-to-one binding). -/
lemma reconcileLoop_stableOrAbsent (g : Bool) (v ok : String → Bool) :
    ∀ (entries : List ManifestEntry) (trk : TrackerState),
      (entries.map (fun e => e.beads_id)).Nodup →
      (∀ e ∈ entries, ok e.beads_id = true) →
      ∀ e' ∈ (reconcileLoop g v ok entries trk).entries,
        stableOrAbsent e' ((reconcileLoop g v ok entries trk).trk e'.beads_id) := by
  intro entries
  induction entries with
  | nil => intro trk _ _ e' h; simp [reconcileLoop] at h
  | cons e rest ih =>
    intro trk hnd hok e' he'
    rw [List.map_cons, List.nodup_cons] at hnd
    simp only [reconcileLoop] at he' ⊢
    rcases List.mem_cons.mp he' with rfl | hmem
    · rw [reconcileEntry_beads_id,
        reconcileLoop_frame g v ok rest _ e.beads_id hnd.1]
      exact reconcileEntry_stableOrAbsent g v ok trk e
        (hok e (List.mem_cons_self e rest))
    · exact ih _ hnd.2 (fun x hx => hok x (List.mem_cons_of_mem e hx)) e' hmem

/-- Same, with every tracker item present: every feature ends in one of the
two consistent pairs. -/
lemma reconcileLoop_stable (g : Bool) (v ok : String → Bool) :
    ∀ (entries : List ManifestEntry) (trk : TrackerState),
      (entries.map (fun e => e.beads_id)).Nodup →
      (∀ e ∈ entries, ok e.beads_id = true) →
      (∀ e ∈ entries, trk e.beads_id ≠ none) →
      ∀ e' ∈ (reconcileLoop g v ok entries trk).entries,
        stablePair e' ((reconcileLoop g v ok entries trk).trk e'.beads_id) := by
  intro entries
  induction entries with
  | nil => intro trk _ _ _ e' h; simp [reconcileLoop] at h
  | cons e rest ih =>
    intro trk hnd hok hpres e' he'
    rw [List.map_cons, List.nodup_cons] at hnd
    simp only [reconcileLoop] at he' ⊢
    rcases List.mem_cons.mp he' with rfl | hmem
    · obtain ⟨b, hb⟩ :=
        Option.ne_none_iff_exists'.mp (hpres e (List.mem_cons_self e rest))
      rw [reconcileEntry_beads_id,
        reconcileLoop_frame g v ok rest _ e.beads_id hnd.1]
      exact reconcileEntry_stable g v ok trk e b
        (hok e (List.mem_cons_self e rest)) hb
    · refine ih _ hnd.2 (fun x hx => hok x (List.mem_cons_of_mem e hx))
        (fun x hx => ?_) e' hmem
      have hxne : x.beads_id ≠ e.beads_id := by
        intro hxe
        exact hnd.1 (hxe ▸ List.mem_map_of_mem (fun y => y.beads_id) hx)
      rw [reconcileEntry_frame g v ok trk e x.beads_id hxne]
      exact hpres x (List.mem_cons_of_mem e hx)

/-- On an already-consistent manifest the whole loop is a no-op: entries and
tracker unchanged, only the per-feature status queries in the trace, and the
`modified` flag stays false. -/
lemma reconcileLoop_noop (g : Bool) (v ok : String → Bool) :
    ∀ (entries : List ManifestEntry) (trk : TrackerState),
      (∀ e ∈ entries, stableOrAbsent e (trk e.beads_id)) →
      reconcileLoop g v ok entries trk =
        ⟨entries, trk,
          entries.map (fun e => TrackerCall.getStatus e.beads_id), false⟩ := by
  intro entries
  induction entries with
  | nil => intro trk _; rfl
  | cons e rest ih =>
    intro trk h
    have hr := reconcileEntry_noop g v ok trk e (h e (List.mem_cons_self e rest))
    simp only [reconcileLoop, hr]
    rw [ih _ (fun x hx => h x (List.mem_cons_of_mem e hx))]
    simp

/-- The `modified` flag only becomes true when some entry actually changed. -/
lemma reconcileLoop_modified (g : Bool) (v ok : String → Bool) :
    ∀ (entries : List ManifestEntry) (trk : TrackerState),
      (reconcileLoop g v ok entries trk).modified = true →
      (reconcileLoop g v ok entries trk).entries ≠ entries := by
  intro entries
  induction entries with
  | nil => intro trk h; simp [reconcileLoop] at h
  | cons e rest ih =>
    intro trk h
    simp only [reconcileLoop] at h ⊢
    rw [Bool.or_eq_true] at h
    rcases h with h | h
    · intro heq
      injection heq with h1 h2
      exact reconcileEntry_modified_ne g v ok trk e h h1
    · intro heq
      injection heq with h1 h2
      exact ih _ h h2

lemma noMutation_getStatus (l : List ManifestEntry) :
    ∀ c ∈ l.map (fun e => TrackerCall.getStatus e.beads_id),
      c.isMutation = false := by
  intro c hc
  rw [List.mem_map] at hc
  obtain ⟨e, _, rfl⟩ := hc
  rfl

lemma parseLines_good :
    ∀ es : List ManifestEntry, parseLines (es.map RawLine.good) = some es := by
  intro es
  induction es with
  | nil => rfl
  | cons e rest ih => simp [parseLines, ih]

lemma parseLines_bad :
    ∀ lines : List RawLine, RawLine.bad ∈ lines → parseLines lines = none := by
  intro lines h
  induction lines with
  | nil => cases h
  | cons l rest ih =>
    cases l with
    | bad => rfl
    | good e =>
      rcases List.mem_cons.mp h with h1 | h2
      · exact absurd h1 (by simp)
      · simp [parseLines, ih h2]

/-- `reconcile` on a successfully synced, parseable, valid manifest reduces to
the per-feature loop followed by the single conditional write. -/
lemma reconcile_run (entries : List ManifestEntry) (trk0 : TrackerState)
    (ok : String → Bool) (g : Bool) (v : String → Bool)
    (hval : manifestErrors entries = []) :
    reconcile (entries.map RawLine.good) true trk0 ok g v =
      ⟨if ((reconcileLoop g v ok entries trk0).entries.filter
            (fun e => decide (e.status = MStatus.in_progress))).length > 0
        then 2 else 0,
       (reconcileLoop g v ok entries trk0).entries,
       (reconcileLoop g v ok entries trk0).trk,
       TrackerCall.sync :: (reconcileLoop g v ok entries trk0).calls,
       if (reconcileLoop g v ok entries trk0).modified
        then [manifestContent (reconcileLoop g v ok entries trk0).entries]
        else []⟩ := by
  simp [reconcile, parseLines_good, hval]

/-- A file-system operation, for the write-trace model of `writeManifest`. -/
inductive FsOp
  | writeFile (path : String) (content : String)
  | rename (src : String) (dst : String)
deriving DecidableEq, Repr

/-- `join(planDir, "manifest.jsonl")`. -/
def manifestPath (planDir : String) : String := planDir ++ "/manifest.jsonl"

/-- `writeManifest` of `reconcile-state.ts` (the one in `sync-devops.ts` is
identical): a single direct `writeFileSync` of the full serialized content to
the manifest path. -/
def writeManifest (planDir : String) (entries : List ManifestEntry) :
    List FsOp :=
  [FsOp.writeFile (manifestPath planDir) (manifestContent entries)]

/-! Concrete fixtures used by witnesses and counterexamples. -/

def entOne : ManifestEntry :=
  ⟨"F001", "features/F001.md", "Feature one", "First feature", [],
    MStatus.pending, "bun test", "bd-1", none⟩

def entTwo : ManifestEntry :=
  ⟨"F002", "features/F002.md", "Feature two", "Second feature", ["F001"],
    MStatus.failed, "bun test", "bd-2", some "1001"⟩

def entProg : ManifestEntry :=
  ⟨"F003", "features/F003.md", "Feature three", "Third feature", [],
    MStatus.in_progress, "bun test", "bd-3", none⟩

def trkPresent : TrackerState := fun x =>
  if x = "bd-1" then some TStatus.open_
  else if x = "bd-2" then some TStatus.in_progress
  else none

def allOk : String → Bool := fun _ => true

/-- C2: for a feature with manifest `in_progress` and tracker `in_progress`,
the reconciler runs the feature's verification command and checks the working
tree: if the command succeeds and the tree is clean the result is manifest
`completed` with the tracker closed; otherwise - in particular whenever the
verification command exits non-zero - the result is manifest `pending` with
the tracker set back to `open`. -/
theorem reconcile_midfeature_crash_recovery (g : Bool) (v ok : String → Bool)
    (trk : TrackerState) (e : ManifestEntry)
    (hm : e.status = MStatus.in_progress)
    (hb : trk e.beads_id = some TStatus.in_progress)
    (hok : ok e.beads_id = true) :
    ((v e.verification = true ∧ g = true) →
      (reconcileEntry g v ok trk e).entry.status = MStatus.completed ∧
      (reconcileEntry g v ok trk e).trk e.beads_id = some TStatus.closed) ∧
    ((v e.verification = false ∨ g = false) →
      (reconcileEntry g v ok trk e).entry.status = MStatus.pending ∧
      (reconcileEntry g v ok trk e).trk e.beads_id = some TStatus.open_) := by
  constructor
  · intro h
    have hvg : (v e.verification && g) = true := by simp [h.1, h.2]
    simp [reconcileEntry, hb, hm, hvg, setTrk, hok]
  · intro h
    have hvg : (v e.verification && g) = false := by
      rcases h with h | h <;> simp [h]
    simp [reconcileEntry, hb, hm, hvg, setTrk, hok]

theorem reconcile_midfeature_crash_recovery_witness :
    (reconcileEntry true (fun _ => true) (fun _ => true)
      (fun _ => some TStatus.in_progress) entProg).entry.status =
        MStatus.completed ∧
    (reconcileEntry true (fun _ => false) (fun _ => true)
      (fun _ => some TStatus.in_progress) entProg).entry.status =
        MStatus.pending :=
  ⟨((reconcile_midfeature_crash_recovery true (fun _ => true) (fun _ => true)
      (fun _ => some TStatus.in_progress) entProg rfl rfl rfl).1
      ⟨rfl, rfl⟩).1,
   ((reconcile_midfeature_crash_recovery true (fun _ => false) (fun _ => true)
      (fun _ => some TStatus.in_progress) entProg rfl rfl rfl).2
      (Or.inl rfl)).1⟩

/-- C9: a tracker status query never raises - it is total, yielding `none`
for an absent or unreachable item - and on `none` the reconciler skips the
feature: the manifest entry is returned unchanged, the tracker state is
untouched everywhere, only the status query appears in the trace, and the
manifest is not marked modified. -/
theorem reconcile_absent_tracker_skip (g : Bool) (v ok : String → Bool)
    (trk : TrackerState) (e : ManifestEntry) (hb : trk e.beads_id = none) :
    (reconcileEntry g v ok trk e).entry = e ∧
    (∀ x, (reconcileEntry g v ok trk e).trk x = trk x) ∧
    (reconcileEntry g v ok trk e).calls = [TrackerCall.getStatus e.beads_id] ∧
    (reconcileEntry g v ok trk e).modified = false := by
  rw [reconcileEntry_skip g v ok trk e hb]
  exact ⟨rfl, fun x => rfl, rfl, rfl⟩

theorem reconcile_absent_tracker_skip_witness :
    (reconcileEntry true (fun _ => true) (fun _ => true) (fun _ => none)
      entOne).entry = entOne :=
  (reconcile_absent_tracker_skip true (fun _ => true) (fun _ => true)
    (fun _ => none) entOne rfl).1

/-- C4 counterexample: with manifest status `failed` and tracker status
`closed`, Case 1 of the source (tracker closed, manifest not completed) fires
before the failed-reset case, so the feature is marked `completed` and the
tracker item stays `closed` - it is not reset to `pending`/`open` as the
claim states for every tracker status. -/
theorem reconcile_failed_retry_counterexample :
    (reconcileEntry true (fun _ => true) (fun _ => true)
        (fun _ => some TStatus.closed) entTwo).entry.status =
      MStatus.completed ∧
    ¬((reconcileEntry true (fun _ => true) (fun _ => true)
        (fun _ => some TStatus.closed) entTwo).entry.status =
          MStatus.pending ∧
      (reconcileEntry true (fun _ => true) (fun _ => true)
        (fun _ => some TStatus.closed) entTwo).trk entTwo.beads_id =
          some TStatus.open_) := by decide

/-- C4 amended: the unconditional retry reset of a `failed` feature holds
whenever its tracker item is `open` or `in_progress` (manifest becomes
`pending`, the tracker item is set to `open`); when the tracker item is
`closed`, the earlier closed-tracker case wins instead and the feature is
marked `completed` with the tracker untouched. -/
theorem reconcile_failed_retry_reset (g : Bool) (v ok : String → Bool)
    (trk : TrackerState) (e : ManifestEntry) (b : TStatus)
    (hm : e.status = MStatus.failed) (hb : trk e.beads_id = some b)
    (hok : ok e.beads_id = true) :
    (b ≠ TStatus.closed →
      (reconcileEntry g v ok trk e).entry.status = MStatus.pending ∧
      (reconcileEntry g v ok trk e).trk e.beads_id = some TStatus.open_ ∧
      TrackerCall.setStatus e.beads_id TStatus.open_ ∈
        (reconcileEntry g v ok trk e).calls) ∧
    (b = TStatus.closed →
      (reconcileEntry g v ok trk e).entry.status = MStatus.completed ∧
      (reconcileEntry g v ok trk e).trk e.beads_id = some TStatus.closed ∧
      ∀ c ∈ (reconcileEntry g v ok trk e).calls, c.isMutation = false) := by
  cases b with
  | closed =>
    refine ⟨fun hbc => absurd rfl hbc, fun _ => ?_⟩
    simp [reconcileEntry, hb, hm, TrackerCall.isMutation]
  | open_ =>
    refine ⟨fun _ => ?_, fun hbc => by simp at hbc⟩
    simp [reconcileEntry, hb, hm, setTrk, hok]
  | in_progress =>
    refine ⟨fun _ => ?_, fun hbc => by simp at hbc⟩
    simp [reconcileEntry, hb, hm, setTrk, hok]

theorem reconcile_failed_retry_reset_witness :
    (reconcileEntry true (fun _ => true) (fun _ => true)
      (fun _ => some TStatus.open_) entTwo).entry.status = MStatus.pending :=
  ((reconcile_failed_retry_reset true (fun _ => true) (fun _ => true)
      (fun _ => some TStatus.open_) entTwo TStatus.open_ rfl rfl rfl).1
    (by decide)).1

/-- C6 counterexample: saving the manifest is not performed as write-to-temp
followed by a rename: the operation trace of a concrete save is a single
direct write to the manifest path, never the claimed two-step pattern. -/
theorem writeManifest_no_temp_rename_counterexample :
    ¬(∃ tmp c, tmp ≠ manifestPath "dev/plans/demo" ∧
        writeManifest "dev/plans/demo" [entOne] =
          [FsOp.writeFile tmp c,
           FsOp.rename tmp (manifestPath "dev/plans/demo")]) := by
  rintro ⟨tmp, c, _, heq⟩
  simp [writeManifest] at heq

/-- C6 amended: saving performs a full overwrite in one single direct write
to the manifest path, serializing the features in input order with a trailing
newline; no temporary file and no rename are involved, so the write-to-temp
plus rename atomicity the claim describes is not provided. -/
theorem writeManifest_direct_overwrite (planDir : String)
    (entries : List ManifestEntry) :
    writeManifest planDir entries =
      [FsOp.writeFile (manifestPath planDir)
        (String.intercalate "\n" (entries.map jsonOfEntry) ++ "\n")] ∧
    (∀ op ∈ writeManifest planDir entries,
      ∀ src dst, op ≠ FsOp.rename src dst) := by
  refine ⟨rfl, ?_⟩
  intro op hop src dst
  simp only [writeManifest, List.mem_singleton] at hop
  subst hop
  simp

/-- C1: after a reconciliation pass over a valid manifest in which every
tracker call succeeds (every status query finds the item and every mutation
takes effect; `beads_id`s pairwise distinct per the one-to-one binding),
every feature ends in a pair from `{(pending, open), (completed, closed)}`
and the pass exits cleanly (0); and in any pass, if some feature is still
`in_progress` in the manifest after all features are processed, the pass does
not exit cleanly but exits with the distinct manual-intervention code 2. -/
theorem reconcile_postpass_state_pairs (entries : List ManifestEntry)
    (g : Bool) (v : String → Bool)
    (hval : manifestErrors entries = [])
    (hnd : (entries.map (fun e => e.beads_id)).Nodup) :
    (∀ (trk0 : TrackerState) (ok : String → Bool),
      (∀ e ∈ entries, ok e.beads_id = true) →
      (∀ e ∈ entries, trk0 e.beads_id ≠ none) →
      (∀ e' ∈ (reconcile (entries.map RawLine.good) true trk0 ok g v).entries,
        stablePair e'
          ((reconcile (entries.map RawLine.good) true trk0 ok g v).trk
            e'.beads_id)) ∧
      (reconcile (entries.map RawLine.good) true trk0 ok g v).exitCode = 0) ∧
    (∀ (trk0 : TrackerState) (ok : String → Bool),
      (∃ e' ∈ (reconcile (entries.map RawLine.good) true trk0 ok g v).entries,
        e'.status = MStatus.in_progress) →
      (reconcile (entries.map RawLine.good) true trk0 ok g v).exitCode = 2) := by
  constructor
  · intro trk0 ok hok hpres
    rw [reconcile_run entries trk0 ok g v hval]
    refine ⟨fun e' he' =>
      reconcileLoop_stable g v ok entries trk0 hnd hok hpres e' he', ?_⟩
    have hnone :
        ((reconcileLoop g v ok entries trk0).entries.filter
          (fun e => decide (e.status = MStatus.in_progress))) = [] := by
      rw [List.filter_eq_nil_iff]
      intro a ha
      rcases reconcileLoop_stable g v ok entries trk0 hnd hok hpres a ha with
        ⟨h1, _⟩ | ⟨h1, _⟩ <;> simp [h1]
    simp [hnone]
  · intro trk0 ok hex
    rw [reconcile_run entries trk0 ok g v hval] at hex ⊢
    obtain ⟨e', he', hst⟩ := hex
    have hmem : e' ∈ (reconcileLoop g v ok entries trk0).entries.filter
        (fun e => decide (e.status = MStatus.in_progress)) :=
      List.mem_filter.mpr ⟨he', by simp [hst]⟩
    have hlen := List.length_pos_of_mem hmem
    simp only []
    rw [if_pos hlen]

theorem reconcile_postpass_state_pairs_witness :
    (reconcile ([entOne, entTwo].map RawLine.good) true trkPresent allOk
      true (fun _ => true)).exitCode = 0 ∧
    (reconcile ([entProg].map RawLine.good) true (fun _ => none) allOk
      true (fun _ => true)).exitCode = 2 :=
  ⟨((reconcile_postpass_state_pairs [entOne, entTwo] true (fun _ => true)
      (by decide) (by decide)).1 trkPresent allOk (by decide) (by decide)).2,
   (reconcile_postpass_state_pairs [entProg] true (fun _ => true)
      (by decide) (by decide)).2 (fun _ => none) allOk (by decide)⟩

/-- Two back-to-back reconciliation passes on the same plan directory: the
second pass reads back the manifest the first pass left (the line-delimited
round trip is taken as lossless) and sees the tracker state the first pass
left. -/
def reconcileTwice (entries : List ManifestEntry) (trk0 : TrackerState)
    (ok1 ok2 : String → Bool) (g : Bool) (v : String → Bool)
    (syncOk2 : Bool) : Outcome :=
  reconcile
    ((reconcile (entries.map RawLine.good) true trk0 ok1 g v).entries.map
      RawLine.good)
    syncOk2
    (reconcile (entries.map RawLine.good) true trk0 ok1 g v).trk
    ok2 g v

/-- C3: with no external change between the passes (same verification
outcomes, same git state, tracker exactly as the first pass left it) and
every tracker mutation of the first pass succeeding, the second pass writes
nothing to the manifest file - so the file stays byte-identical - and makes
no tracker mutation calls (`bd update`/`bd close`). -/
theorem reconcile_idempotent_second_pass (entries : List ManifestEntry)
    (trk0 : TrackerState) (ok1 ok2 : String → Bool) (g : Bool)
    (v : String → Bool) (syncOk2 : Bool) (content1 : String)
    (hval : manifestErrors entries = [])
    (hnd : (entries.map (fun e => e.beads_id)).Nodup)
    (hok : ∀ e ∈ entries, ok1 e.beads_id = true) :
    (reconcileTwice entries trk0 ok1 ok2 g v syncOk2).writes = [] ∧
    (∀ c ∈ (reconcileTwice entries trk0 ok1 ok2 g v syncOk2).calls,
      c.isMutation = false) ∧
    applyWrites content1
      (reconcileTwice entries trk0 ok1 ok2 g v syncOk2).writes = content1 := by
  unfold reconcileTwice
  rw [reconcile_run entries trk0 ok1 g v hval]
  cases syncOk2 with
  | false =>
    refine ⟨rfl, ?_, rfl⟩
    intro c hc
    rcases List.mem_singleton.mp hc with rfl
    rfl
  | true =>
    have hshape := reconcileLoop_shape g v ok1 entries trk0
    have hval2 :
        manifestErrors (reconcileLoop g v ok1 entries trk0).entries = [] := by
      unfold manifestErrors
      rw [manifestErrorsFrom_shape hshape 0]
      exact hval
    rw [reconcile_run _ _ ok2 g v hval2]
    have hstab := reconcileLoop_stableOrAbsent g v ok1 entries trk0 hnd hok
    rw [reconcileLoop_noop g v ok2 _ _ (fun e he => hstab e he)]
    refine ⟨by simp, ?_, by simp [applyWrites]⟩
    intro c hc
    rcases List.mem_cons.mp hc with rfl | hc
    · rfl
    · exact noMutation_getStatus _ c hc

theorem reconcile_idempotent_second_pass_witness :
    (reconcileTwice [entOne, entTwo] trkPresent allOk allOk true
      (fun _ => true) true).writes = [] :=
  (reconcile_idempotent_second_pass [entOne, entTwo] trkPresent allOk allOk
    true (fun _ => true) true "" (by decide) (by decide) (by decide)).1

/-- C5 counterexample: on a manifest with a malformed line the pass exits 1
with zero writes, but the tracker has already been called: the bulk `bd sync`
of Step 1 precedes manifest reading, so "zero calls to the Tracker Client
(including the bulk sync call)" is false. -/
theorem reconcile_corrupt_manifest_sync_counterexample :
    (reconcile [RawLine.bad] true trkPresent allOk true
      (fun _ => true)).exitCode = 1 ∧
    TrackerCall.sync ∈
      (reconcile [RawLine.bad] true trkPresent allOk true
        (fun _ => true)).calls := by decide

/-- C5 amended: a manifest with a malformed line makes the pass exit 1 with
zero writes to the manifest file, no item-level tracker calls and no tracker
mutation - but the bulk sync call does occur (it precedes manifest reading),
so the whole trace is exactly `[sync]`. -/
theorem reconcile_corrupt_manifest_aborts (lines : List RawLine)
    (syncOk : Bool) (trk0 : TrackerState) (ok : String → Bool) (g : Bool)
    (v : String → Bool) (hbad : RawLine.bad ∈ lines) :
    (reconcile lines syncOk trk0 ok g v).exitCode = 1 ∧
    (reconcile lines syncOk trk0 ok g v).writes = [] ∧
    (reconcile lines syncOk trk0 ok g v).calls = [TrackerCall.sync] ∧
    (∀ x, (reconcile lines syncOk trk0 ok g v).trk x = trk0 x) := by
  cases syncOk <;>
    simp [reconcile, parseLines_bad lines hbad]

theorem reconcile_corrupt_manifest_aborts_witness :
    (reconcile [RawLine.good entOne, RawLine.bad] true trkPresent allOk true
      (fun _ => true)).writes = [] :=
  (reconcile_corrupt_manifest_aborts [RawLine.good entOne, RawLine.bad] true
    trkPresent allOk true (fun _ => true) (by decide)).2.1

/-- C10: a pass writes the manifest at most once; every exit-1 abort path
(tracker sync failure, unreadable or corrupt manifest, validation errors)
performs zero writes, leaving the on-disk manifest byte-identical; the only
possible write carries the final entries after all features were processed;
and a write happens only when some entry actually changed. -/
theorem reconcile_write_discipline (lines : List RawLine) (syncOk : Bool)
    (trk0 : TrackerState) (ok : String → Bool) (g : Bool)
    (v : String → Bool) :
    (reconcile lines syncOk trk0 ok g v).writes.length ≤ 1 ∧
    ((reconcile lines syncOk trk0 ok g v).exitCode = 1 →
      (reconcile lines syncOk trk0 ok g v).writes = [] ∧
      ∀ before, applyWrites before
        (reconcile lines syncOk trk0 ok g v).writes = before) ∧
    ((reconcile lines syncOk trk0 ok g v).writes = [] ∨
      (reconcile lines syncOk trk0 ok g v).writes =
        [manifestContent (reconcile lines syncOk trk0 ok g v).entries]) ∧
    (∀ entries, parseLines lines = some entries →
      (reconcile lines syncOk trk0 ok g v).writes ≠ [] →
      (reconcile lines syncOk trk0 ok g v).entries ≠ entries) := by
  cases syncOk with
  | false =>
    refine ⟨by simp [reconcile], fun _ => ⟨rfl, fun before => rfl⟩,
      Or.inl rfl, ?_⟩
    intro entries _ hw
    exact absurd rfl hw
  | true =>
    cases hp : parseLines lines with
    | none =>
      have hrec : reconcile lines true trk0 ok g v =
          ⟨1, [], trk0, [TrackerCall.sync], []⟩ := by
        simp [reconcile, hp]
      rw [hrec]
      refine ⟨by simp, fun _ => ⟨rfl, fun before => rfl⟩, Or.inl rfl, ?_⟩
      intro entries he
      exact absurd he (by simp)
    | some entries0 =>
      by_cases hval : (manifestErrors entries0).length > 0
      · have hrec : reconcile lines true trk0 ok g v =
            ⟨1, [], trk0, [TrackerCall.sync], []⟩ := by
          simp [reconcile, hp, hval]
        rw [hrec]
        refine ⟨by simp, fun _ => ⟨rfl, fun before => rfl⟩, Or.inl rfl, ?_⟩
        intro entries _ hw
        exact absurd rfl hw
      · have hrec : reconcile lines true trk0 ok g v =
            ⟨if ((reconcileLoop g v ok entries0 trk0).entries.filter
                  (fun e => decide (e.status = MStatus.in_progress))).length
                > 0
              then 2 else 0,
             (reconcileLoop g v ok entries0 trk0).entries,
             (reconcileLoop g v ok entries0 trk0).trk,
             TrackerCall.sync :: (reconcileLoop g v ok entries0 trk0).calls,
             if (reconcileLoop g v ok entries0 trk0).modified
              then [manifestContent
                      (reconcileLoop g v ok entries0 trk0).entries]
              else []⟩ := by
          simp [reconcile, hp, hval]
        rw [hrec]
        refine ⟨?_, ?_, ?_, ?_⟩
        · cases hmod : (reconcileLoop g v ok entries0 trk0).modified <;>
            simp [hmod]
        · intro hexit
          exact absurd hexit (by split_ifs <;> simp)
        · cases hmod : (reconcileLoop g v ok entries0 trk0).modified
          · exact Or.inl (by simp [hmod])
          · exact Or.inr (by simp [hmod])
        · intro entries he hw
          injection he with hent
          subst hent
          have hmod :
              (reconcileLoop g v ok entries0 trk0).modified = true := by
            by_contra hmod
            rw [Bool.not_eq_true] at hmod
            simp [hmod] at hw
          exact reconcileLoop_modified g v ok entries0 trk0 hmod

theorem reconcile_write_discipline_witness :
    (reconcile ([entOne].map RawLine.good) true (fun _ => some TStatus.closed)
      allOk true (fun _ => true)).entries ≠ [entOne] :=
  (reconcile_write_discipline ([entOne].map RawLine.good) true
      (fun _ => some TStatus.closed) allOk true (fun _ => true)).2.2.2
    [entOne] (by decide) (by decide)

/-! Quality Gate Pipeline (`verify-stop.ts`). -/

/-- The recognized optional verification-command configuration keys. -/
structure VerifyConfig where
  build_command : Option String
  test_command : Option String
  lint_command : Option String
  format_command : Option String
  static_analysis_command : Option String
deriving DecidableEq, Repr

/-- Modelled from the spec: `lib/config.ts` (`loadConfig` /
`getVerificationCommands`) is not among the sources, only its caller
`verify-stop.ts` is.  Per the spec's configuration contract the recognized
optional keys are `build_command, test_command, lint_command, format_command,
static_analysis_command`; each present key yields a named gate in this fixed
order, and an absent key silently skips its gate. -/
def getVerificationCommands (c : VerifyConfig) : List (String × String) :=
  (match c.build_command with | some cmd => [("build", cmd)] | none => []) ++
  (match c.test_command with | some cmd => [("test", cmd)] | none => []) ++
  (match c.lint_command with | some cmd => [("lint", cmd)] | none => []) ++
  (match c.format_command with | some cmd => [("format", cmd)] | none => []) ++
  (match c.static_analysis_command with
   | some cmd => [("static-analysis", cmd)] | none => [])

/-- One aggregated failure pushed onto `errors` in `verify-stop.ts` `main`;
one constructor per `errors.push` site. -/
inductive StopError
  | workflowCompliance (issues : List String)
  | uncommittedChanges (files : List String)
  | configIssue (message : String)
  | commandFailed (gate : String) (command : String) (output : String)
  | verifierIssues (issues : List String)
deriving DecidableEq, Repr

/-- The environment one `verify-stop` run observes: the workflow-compliance
issues (gate 0), the `git status --porcelain` lines (gate 1), the loaded
configuration and its load error, the Command Runner (modelled from the spec:
`lib/tests.ts` `runCommand` is not among the sources; per the spec it returns
success plus combined output and never throws), and the verification agent
verdict (gate 7). -/
structure StopEnv where
  workflowIssues : List String
  uncommitted : List String
  config : Option VerifyConfig
  configError : Option String
  run : String → Bool × String
  agentPassed : Bool
  agentIssues : List String

/-- Failures of the configured command gates (gates 2-6), in gate order;
every configured command runs, failures accumulate without short-circuit. -/
def gateFailures (run : String → Bool × String) :
    List (String × String) → List StopError
  | [] => []
  | (n, cmd) :: rest =>
    (if (run cmd).1 then []
     else [StopError.commandFailed n cmd (run cmd).2]) ++
      gateFailures run rest

/-- The `errors` list accumulated by `main` over gates 0-7. -/
def verifyStopErrors (env : StopEnv) : List StopError :=
  (if env.workflowIssues = [] then []
   else [StopError.workflowCompliance env.workflowIssues]) ++
  (if env.uncommitted = [] then []
   else [StopError.uncommittedChanges env.uncommitted]) ++
  (match env.configError with
   | some m => [StopError.configIssue m]
   | none => []) ++
  (match env.config with
   | some c => gateFailures env.run (getVerificationCommands c)
   | none => []) ++
  (if env.agentPassed then [] else [StopError.verifierIssues env.agentIssues])

/-- Exit code of `verify-stop.ts` `main`: block (2) when any gate failed,
allow (0) otherwise. -/
def verifyStopExit (env : StopEnv) : Nat :=
  if (verifyStopErrors env).length > 0 then 2 else 0

/-- External call trace of one `verify-stop` run: the Beads reads backing
workflow compliance, the git status query, one process run per configured
command gate, and the verification agent.  The two tracker-mutation
constructors give the vocabulary for the claimed close-on-allow side effect;
`main` has no call site producing them. -/
inductive PipelineCall
  | beadsQuery (command : String)
  | gitStatusQuery
  | runCmd (command : String)
  | verifierCall
  | trackerSetStatus (taskId : String) (status : TStatus)
  | trackerClose (taskId : String) (reason : String)
deriving DecidableEq, Repr

def PipelineCall.isTrackerMutation : PipelineCall → Bool
  | PipelineCall.trackerSetStatus _ _ => true
  | PipelineCall.trackerClose _ _ => true
  | _ => false

def verifyStopCalls (env : StopEnv) : List PipelineCall :=
  [PipelineCall.beadsQuery "bd list --status=in_progress --json",
   PipelineCall.gitStatusQuery] ++
  (match env.config with
   | some c =>
     (getVerificationCommands c).map (fun p => PipelineCall.runCmd p.2)
   | none => []) ++
  [PipelineCall.verifierCall]

lemma gateFailures_mem (run : String → Bool × String) :
    ∀ (l : List (String × String)) (n cmd : String), (n, cmd) ∈ l →
      (run cmd).1 = false →
      StopError.commandFailed n cmd (run cmd).2 ∈ gateFailures run l := by
  intro l
  induction l with
  | nil => intro n cmd h _; cases h
  | cons p rest ih =>
    intro n cmd h hf
    obtain ⟨pn, pcmd⟩ := p
    rcases List.mem_cons.mp h with heq | hmem
    · injection heq with h1 h2
      subst h1
      subst h2
      simp [gateFailures, hf]
    · rcases hr : (run pcmd).1 with _ | _ <;>
        simp [gateFailures, hr, ih n cmd hmem hf]

lemma gateFailures_sub (run : String → Bool × String) :
    ∀ (l : List (String × String)) (err : StopError),
      err ∈ gateFailures run l →
      ∃ n cmd, (n, cmd) ∈ l ∧ (run cmd).1 = false ∧
        err = StopError.commandFailed n cmd (run cmd).2 := by
  intro l
  induction l with
  | nil => intro err h; cases h
  | cons p rest ih =>
    intro err h
    obtain ⟨pn, pcmd⟩ := p
    rcases hr : (run pcmd).1 with _ | _
    · rw [gateFailures] at h
      rw [hr] at h
      simp only [Bool.false_eq_true, if_false, List.cons_append,
        List.nil_append, List.mem_cons] at h
      rcases h with rfl | h
      · exact ⟨pn, pcmd, List.mem_cons_self _ _, hr, rfl⟩
      · obtain ⟨n, cmd, hm, hf, he⟩ := ih err h
        exact ⟨n, cmd, List.mem_cons_of_mem _ hm, hf, he⟩
    · rw [gateFailures] at h
      rw [hr] at h
      simp only [if_true, List.nil_append] at h
      obtain ⟨n, cmd, hm, hf, he⟩ := ih err h
      exact ⟨n, cmd, List.mem_cons_of_mem _ hm, hf, he⟩

lemma getVerificationCommands_name (c : VerifyConfig) :
    ∀ n cmd, (n, cmd) ∈ getVerificationCommands c →
      (n = "build" ∧ c.build_command = some cmd) ∨
      (n = "test" ∧ c.test_command = some cmd) ∨
      (n = "lint" ∧ c.lint_command = some cmd) ∨
      (n = "format" ∧ c.format_command = some cmd) ∨
      (n = "static-analysis" ∧ c.static_analysis_command = some cmd) := by
  intro n cmd hmem
  obtain ⟨b, t, li, f, s⟩ := c
  cases b <;> cases t <;> cases li <;> cases f <;> cases s <;>
    simp_all [getVerificationCommands, eq_comm]

lemma mem_ite_nil_singleton {α : Type} {P : Prop} [Decidable P] {x y : α}
    (h : y ∈ (if P then ([] : List α) else [x])) : y = x := by
  split_ifs at h
  · cases h
  · exact List.mem_singleton.mp h

/-- C7: the pipeline evaluates every applicable gate and collects all
failures before deciding; unset configuration commands are skipped silently;
in particular, with the test command set and failing and `build_command`
unset, the run blocks with exit 2, the test gate is reported failed, and no
build gate appears anywhere in the aggregated failures. -/
theorem verifyStop_gate_aggregation (env : StopEnv) (c : VerifyConfig)
    (tc : String) (hc : env.config = some c) (ht : c.test_command = some tc)
    (hb : c.build_command = none) (hf : (env.run tc).1 = false) :
    verifyStopExit env = 2 ∧
    StopError.commandFailed "test" tc (env.run tc).2 ∈ verifyStopErrors env ∧
    (∀ n cmd out, StopError.commandFailed n cmd out ∈ verifyStopErrors env →
      n ≠ "build") ∧
    (∀ p ∈ getVerificationCommands c, (env.run p.2).1 = false →
      StopError.commandFailed p.1 p.2 (env.run p.2).2 ∈
        verifyStopErrors env) := by
  have hmemGate : ∀ p ∈ getVerificationCommands c, (env.run p.2).1 = false →
      StopError.commandFailed p.1 p.2 (env.run p.2).2 ∈
        verifyStopErrors env := by
    intro p hp hfail
    obtain ⟨pn, pcmd⟩ := p
    have hg := gateFailures_mem env.run (getVerificationCommands c)
      pn pcmd hp hfail
    unfold verifyStopErrors
    rw [hc]
    exact List.mem_append.mpr (Or.inl (List.mem_append.mpr (Or.inr hg)))
  have htest : StopError.commandFailed "test" tc (env.run tc).2 ∈
      verifyStopErrors env := by
    refine hmemGate ("test", tc) ?_ hf
    simp [getVerificationCommands, ht, hb]
  refine ⟨?_, htest, ?_, hmemGate⟩
  · have hlen := List.length_pos_of_mem htest
    simp [verifyStopExit, hlen]
  · intro n cmd out hmem hn
    subst hn
    unfold verifyStopErrors at hmem
    rw [hc] at hmem
    rcases List.mem_append.mp hmem with hmem | hmem
    rcases List.mem_append.mp hmem with hmem | hmem
    rcases List.mem_append.mp hmem with hmem | hmem
    rcases List.mem_append.mp hmem with hmem | hmem
    · have := mem_ite_nil_singleton hmem
      cases this
    · have := mem_ite_nil_singleton hmem
      cases this
    · rcases hce : env.configError with _ | m <;> rw [hce] at hmem
      · cases hmem
      · rcases List.mem_singleton.mp hmem with heq
        cases heq
    · obtain ⟨n', cmd', hm, _, he⟩ :=
        gateFailures_sub env.run (getVerificationCommands c) _ hmem
      injection he with h1 h2 h3
      subst h1
      rcases getVerificationCommands_name c "build" cmd' hm with
        ⟨_, hbc⟩ | ⟨hne, _⟩ | ⟨hne, _⟩ | ⟨hne, _⟩ | ⟨hne, _⟩
      · rw [hb] at hbc
        cases hbc
      all_goals exact absurd hne (by decide)
    · split_ifs at hmem
      · cases hmem
      · rcases List.mem_singleton.mp hmem with heq
        cases heq

def cfgTestOnly : VerifyConfig := ⟨none, some "bun test", none, none, none⟩

def envTestFail : StopEnv :=
  ⟨[], [], some cfgTestOnly, none, fun _ => (false, "1 test failed"), true, []⟩

theorem verifyStop_gate_aggregation_witness :
    verifyStopExit envTestFail = 2 :=
  (verifyStop_gate_aggregation envTestFail cfgTestOnly "bun test"
    rfl rfl rfl rfl).1

def envAllPass : StopEnv :=
  ⟨[], [], some cfgTestOnly, none, fun _ => (true, ""), true, []⟩

/-- C8 counterexample: a run whose gates all pass returns allowed (exit 0)
but its whole external call trace contains no tracker mutation at all - no
`close` of any tracker item and no parent-container propagation call - so a
manifest holding a `completed` feature bound to a still-open tracker item
keeps that item open, contradicting the claimed side effect. -/
theorem verifyStop_no_tracker_close_counterexample :
    verifyStopExit envAllPass = 0 ∧
    (verifyStopCalls envAllPass).all
      (fun cl => !cl.isTrackerMutation) = true ∧
    PipelineCall.trackerClose "bd-1"
      "All children closed" ∉ verifyStopCalls envAllPass := by decide

/-- C8 amended: whenever the aggregated failure list is empty the pipeline
returns allowed (exit 0), and it performs no tracker side effect whatsoever:
no tracker item is closed (in particular not those bound to completed
manifest features) and no all-children-closed parent propagation is
triggered. -/
theorem verifyStop_allowed_no_tracker_mutation (env : StopEnv)
    (h : verifyStopErrors env = []) :
    verifyStopExit env = 0 ∧
    ∀ cl ∈ verifyStopCalls env, cl.isTrackerMutation = false := by
  refine ⟨by simp [verifyStopExit, h], ?_⟩
  intro cl hcl
  unfold verifyStopCalls at hcl
  rcases List.mem_append.mp hcl with hcl | hcl
  rcases List.mem_append.mp hcl with hcl | hcl
  · rcases List.mem_cons.mp hcl with rfl | hcl
    · rfl
    · rcases List.mem_singleton.mp hcl with rfl
      rfl
  · rcases hc : env.config with _ | c <;> rw [hc] at hcl
    · cases hcl
    · obtain ⟨p, _, rfl⟩ := List.mem_map.mp hcl
      rfl
  · rcases List.mem_singleton.mp hcl with rfl
    rfl

theorem verifyStop_allowed_no_tracker_mutation_witness :
    verifyStopExit envAllPass = 0 :=
  (verifyStop_allowed_no_tracker_mutation envAllPass (by decide)).1

end PlanningSystem
